import Mathlib

/-!
Verification of the short-term memory store and perception tag derivation
of the agentic-app repository, as a shallow embedding in Lean.

Modelling conventions:
- time is measured in hours as an `Int`; `datetime.now()` becomes an explicit
  `now : Int` argument to the operations that read the clock, and
  `timedelta(hours=h)` becomes the integer `h`;
- `float` importance scores become `Rat` (only comparison and clamping occur);
- pydantic validation of `Memory` (the field bounds `ge=0.0, le=10.0` on
  `importance`) is modelled by the fallible constructor `mkMemory?`: a
  `ValidationError` is `none`;
- Python `Optional` parameters become `Option`; the truthiness tests
  (`if limit:`, `if hours_back:`, `if tags:`) are translated exactly, so
  `some 0` and `some []` behave like `None` where Python treats `0`/`[]`
  as falsy;
- `metadata` is an opaque association list of strings; the store never
  inspects it, matching `Dict[str, Any]` used opaquely.
-/

/-- The `MemoryType` enum of `memory.py`. -/
inductive MemoryType where
  | conversation
  | observation
  | decision
  | action
  | learning
  | context
deriving DecidableEq, Repr

/-- A stored memory record (the `Memory` pydantic model's fields). -/
structure Memory where
  id : String
  content : String
  memoryType : MemoryType
  timestamp : Int
  importance : Rat
  tags : List String
  metadata : List (String × String)
deriving DecidableEq, Repr

/-- Pydantic's field constraint on `Memory.importance` (`ge=0.0, le=10.0`). -/
def memValid (m : Memory) : Prop := 0 ≤ m.importance ∧ m.importance ≤ 10

instance (m : Memory) : Decidable (memValid m) := by
  unfold memValid; infer_instance

/-- Constructing a `Memory` validates the `importance` bounds; a pydantic
`ValidationError` is modelled as `none`. -/
def mkMemory? (id content : String) (memoryType : MemoryType) (timestamp : Int)
    (importance : Rat) (tags : List String) (metadata : List (String × String)) :
    Option Memory :=
  let m : Memory :=
    { id := id, content := content, memoryType := memoryType,
      timestamp := timestamp, importance := importance,
      tags := tags, metadata := metadata }
  if memValid m then some m else none

/-- The `ShortTermMemory` store state. -/
structure Store where
  maxMemories : Nat
  retentionHours : Nat
  memories : List Memory
  nextId : Nat
deriving DecidableEq, Repr

/-- `ShortTermMemory.__init__`. -/
def mkStore (maxMemories : Nat) (retentionHours : Nat) : Store :=
  { maxMemories := maxMemories, retentionHours := retentionHours,
    memories := [], nextId := 1 }

/-- Python tuple comparison `(importance, timestamp) <= (importance, timestamp)`
(lexicographic), as used by the sort keys in `memory.py`. -/
def memKeyLE (m n : Memory) : Bool :=
  decide (m.importance < n.importance) ||
    (decide (m.importance = n.importance) && decide (m.timestamp ≤ n.timestamp))

/-- Stable insertion (from the left) into an ascending-sorted list; an element
inserted is earlier in the original list than the elements of the target, so on
ties it is placed first, exactly as Python's stable `list.sort`. -/
def insertAsc (m : Memory) : List Memory → List Memory
  | [] => [m]
  | x :: xs => if memKeyLE m x then m :: x :: xs else x :: insertAsc m xs

/-- `list.sort(key=lambda m: (m.importance, m.timestamp))`: stable ascending
sort by the (importance, timestamp) pair. -/
def sortAsc (l : List Memory) : List Memory := l.foldr insertAsc []

/-- Stable insertion into a descending-sorted list; ties keep original order. -/
def insertDesc (m : Memory) : List Memory → List Memory
  | [] => [m]
  | x :: xs => if memKeyLE x m then m :: x :: xs else x :: insertDesc m xs

/-- `list.sort(key=..., reverse=True)`: stable descending sort by the
(importance, timestamp) pair. -/
def sortDesc (l : List Memory) : List Memory := l.foldr insertDesc []

/-- `ShortTermMemory._cleanup_old_memories`: keep records with
`timestamp >= now - retention_hours`. -/
def cleanupOldMemories (s : Store) (now : Int) : Store :=
  { s with memories :=
      s.memories.filter (fun m => decide (now - (s.retentionHours : Int) ≤ m.timestamp)) }

/-- `ShortTermMemory._enforce_max_memories`: if over capacity, sort ascending
by (importance, timestamp) and drop the excess from the front. -/
def enforceMaxMemories (s : Store) : Store :=
  if s.memories.length > s.maxMemories then
    { s with memories :=
        (sortAsc s.memories).drop (s.memories.length - s.maxMemories) }
  else s

/-- `ShortTermMemory.add_memory`. The id is computed and `_next_id` advanced
before the `Memory` is constructed, so a `ValidationError` (result `none`)
still leaves `_next_id` incremented and the record list untouched. -/
def addMemory (s : Store) (now : Int) (content : String) (memoryType : MemoryType)
    (importance : Rat) (tags : List String) (metadata : List (String × String)) :
    Option String × Store :=
  let memoryId := "mem_" ++ toString s.nextId
  let s1 := { s with nextId := s.nextId + 1 }
  match mkMemory? memoryId content memoryType now importance tags metadata with
  | none => (none, s1)
  | some m =>
      let s2 := { s1 with memories := s1.memories ++ [m] }
      let s3 := cleanupOldMemories s2 now
      let s4 := enforceMaxMemories s3
      (some memoryId, s4)

/-- `ShortTermMemory.get_memories`. The Python truthiness tests are kept:
`if memory_type:` (enum values are truthy), `if tags:` (empty list falsy),
`if hours_back:` and `if limit:` (zero falsy). -/
def getMemories (s : Store) (now : Int) (memoryType : Option MemoryType)
    (tags : Option (List String)) (minImportance : Rat)
    (limit : Option Nat) (hoursBack : Option Nat) : List Memory :=
  let f0 : List Memory := s.memories
  let f1 : List Memory := match memoryType with
    | some t => f0.filter (fun m => decide (m.memoryType = t))
    | none => f0
  let f2 : List Memory := match tags with
    | some ts =>
        if ts.isEmpty then f1
        else f1.filter (fun m => ts.any (fun t => m.tags.contains t))
    | none => f1
  let f3 := f2.filter (fun m => decide (minImportance ≤ m.importance))
  let f4 := match hoursBack with
    | some h => if h = 0 then f3
        else f3.filter (fun m => decide (now - (h : Int) ≤ m.timestamp))
    | none => f3
  let f5 := sortDesc f4
  match limit with
  | some n => if n = 0 then f5 else f5.take n
  | none => f5

/-- `max(0.0, min(10.0, new_importance))` from `update_memory_importance`. -/
def clampImportance (x : Rat) : Rat := max 0 (min 10 x)

/-- The recursion of `ShortTermMemory.update_memory_importance`: clamp and
apply to the first record with the given id, reporting whether one was found. -/
def updateFirst (memoryId : String) (newImportance : Rat) :
    List Memory → Bool × List Memory
  | [] => (false, [])
  | m :: ms =>
      if m.id = memoryId then
        (true, { m with importance := clampImportance newImportance } :: ms)
      else
        let r := updateFirst memoryId newImportance ms
        (r.1, m :: r.2)

/-- `ShortTermMemory.update_memory_importance`. -/
def updateMemoryImportance (s : Store) (memoryId : String) (newImportance : Rat) :
    Bool × Store :=
  let r := updateFirst memoryId newImportance s.memories
  (r.1, { s with memories := r.2 })

/-- The recursion of `ShortTermMemory.delete_memory`: remove the first record
with the given id, reporting whether one was found. -/
def deleteFirst (memoryId : String) : List Memory → Bool × List Memory
  | [] => (false, [])
  | m :: ms =>
      if m.id = memoryId then (true, ms)
      else
        let r := deleteFirst memoryId ms
        (r.1, m :: r.2)

/-- `ShortTermMemory.delete_memory`. -/
def deleteMemory (s : Store) (memoryId : String) : Bool × Store :=
  let r := deleteFirst memoryId s.memories
  (r.1, { s with memories := r.2 })

/-- `ShortTermMemory.clear_memories`. -/
def clearMemories (s : Store) (memoryType : Option MemoryType) : Store :=
  match memoryType with
  | some t => { s with memories := s.memories.filter (fun m => !decide (m.memoryType = t)) }
  | none => { s with memories := [] }

/-- The serialized layout produced by `ShortTermMemory.to_dict`; each entry of
`memories` carries exactly the fields of `Memory.dict()`. -/
structure StoreDict where
  memories : List Memory
  next_id : Nat
  max_memories : Nat
  retention_hours : Nat
deriving DecidableEq, Repr

/-- `ShortTermMemory.to_dict`. -/
def toDict (s : Store) : StoreDict :=
  { memories := s.memories, next_id := s.nextId,
    max_memories := s.maxMemories, retention_hours := s.retentionHours }

/-- `Memory(**mem_data)` during `from_dict`: pydantic revalidates the
importance bounds. -/
def revalidateMemory (m : Memory) : Option Memory :=
  if memValid m then some m else none

/-- `[Memory(**d) for d in data["memories"]]`: all-or-nothing revalidation. -/
def validateAll : List Memory → Option (List Memory)
  | [] => some []
  | m :: ms =>
      match revalidateMemory m, validateAll ms with
      | some m', some ms' => some (m' :: ms')
      | _, _ => none

/-- `ShortTermMemory.from_dict`: replaces the whole state; a `ValidationError`
while rebuilding a record (result `none`) leaves the store unchanged. It runs
no retention sweep and no capacity eviction. -/
def fromDict (_s : Store) (d : StoreDict) : Option Store :=
  match validateAll d.memories with
  | none => none
  | some ms => some
      { maxMemories := d.max_memories, retentionHours := d.retention_hours,
        memories := ms, nextId := d.next_id }

/-!
Perception layer (`perception.py`): the structured user input and the
rule-based semantic tag derivation `PerceptionManager.get_semantic_tags`.
Only the hour of the timestamp is inspected, so the input carries it directly.
-/

/-- The fields of `UserInput` that `get_semantic_tags` reads: mood, activity,
and the hour of the timestamp. -/
structure UserInput where
  mood : String
  activity : String
  hour : Nat
deriving DecidableEq, Repr

/-- Python substring containment `pat in hay` on character lists. -/
def hasSub (pat : List Char) : List Char → Bool
  | [] => pat.isPrefixOf []
  | c :: cs => pat.isPrefixOf (c :: cs) || hasSub pat cs

/-- Python `pat in hay` on strings. -/
def strIn (pat hay : String) : Bool := hasSub pat.data hay.data

/-- Python `str.lower()` on one character (the inputs here are ASCII). -/
def charLower (c : Char) : Char :=
  if 'A' ≤ c ∧ c ≤ 'Z' then Char.ofNat (c.toNat + 32) else c

/-- Python `str.lower()`. -/
def strLower (s : String) : String := String.mk (s.data.map charLower)

/-- The mood branch of `get_semantic_tags`: an `if`/`elif` chain, first
matching keyword set wins, checked against the lowercased mood. -/
def moodTagsOf (mood : String) : List String :=
  if (["happy", "excited", "joyful", "energetic"].any fun w => strIn w (strLower mood)) then
    ["positive-energy"]
  else if (["sad", "melancholy", "depressed", "down"].any fun w => strIn w (strLower mood)) then
    ["melancholic"]
  else if (["calm", "peaceful", "relaxed", "zen"].any fun w => strIn w (strLower mood)) then
    ["calm"]
  else if (["angry", "frustrated", "aggressive"].any fun w => strIn w (strLower mood)) then
    ["intense"]
  else []

/-- The activity branch of `get_semantic_tags`. -/
def activityTagsOf (activity : String) : List String :=
  if (["work", "study", "focus", "coding"].any fun w => strIn w (strLower activity)) then
    ["focus"]
  else if (["exercise", "workout", "gym", "running"].any fun w => strIn w (strLower activity)) then
    ["exercise"]
  else if (["relax", "meditate", "chill", "rest"].any fun w => strIn w (strLower activity)) then
    ["relaxation"]
  else if (["party", "celebrate", "social"].any fun w => strIn w (strLower activity)) then
    ["social"]
  else if (["commute", "travel", "driving"].any fun w => strIn w (strLower activity)) then
    ["travel"]
  else []

/-- The time-of-day branch of `get_semantic_tags`. -/
def timeOfDayTag (hour : Nat) : String :=
  if 5 ≤ hour ∧ hour < 12 then "morning"
  else if 12 ≤ hour ∧ hour < 17 then "afternoon"
  else if 17 ≤ hour ∧ hour < 21 then "evening"
  else "night"

/-- `PerceptionManager.get_semantic_tags`: empty when no input has been
perceived, otherwise the mood tags, then the activity tags, then the
time-of-day tag, in the order the Python code appends them. -/
def getSemanticTags (currentInput : Option UserInput) : List String :=
  match currentInput with
  | none => []
  | some inp =>
      moodTagsOf inp.mood ++ activityTagsOf inp.activity ++ [timeOfDayTag inp.hour]

/-- The possible mood tags. -/
def moodTagSet : List String := ["positive-energy", "melancholic", "calm", "intense"]

/-- The possible activity tags. -/
def activityTagSet : List String := ["focus", "exercise", "relaxation", "social", "travel"]

/-- The possible time-of-day tags. -/
def timeTagSet : List String := ["morning", "afternoon", "evening", "night"]

/-!
Helper lemmas about the store operations.
-/

theorem mem_insertAsc {m x : Memory} {l : List Memory} (h : x ∈ insertAsc m l) :
    x = m ∨ x ∈ l := by
  induction l with
  | nil => simpa [insertAsc] using h
  | cons y ys ih =>
      have he : insertAsc m (y :: ys) =
          if memKeyLE m y then m :: y :: ys else y :: insertAsc m ys := rfl
      rw [he] at h
      by_cases hk : memKeyLE m y = true
      · rw [if_pos hk] at h
        simp only [List.mem_cons] at h
        rcases h with h | h | h
        · exact Or.inl h
        · exact Or.inr (by simp [h])
        · exact Or.inr (List.mem_cons_of_mem _ h)
      · rw [if_neg hk] at h
        simp only [List.mem_cons] at h
        rcases h with h | h
        · exact Or.inr (by simp [h])
        · rcases ih h with h' | h'
          · exact Or.inl h'
          · exact Or.inr (List.mem_cons_of_mem _ h')

theorem mem_sortAsc {x : Memory} {l : List Memory} (h : x ∈ sortAsc l) : x ∈ l := by
  induction l with
  | nil => simp [sortAsc] at h
  | cons y ys ih =>
      have : x ∈ insertAsc y (sortAsc ys) := h
      rcases mem_insertAsc this with h' | h'
      · simp [h']
      · exact List.mem_cons_of_mem _ (ih h')

theorem length_insertAsc (m : Memory) (l : List Memory) :
    (insertAsc m l).length = l.length + 1 := by
  induction l with
  | nil => rfl
  | cons y ys ih =>
      unfold insertAsc
      by_cases hk : memKeyLE m y = true <;> simp [hk, ih]

theorem length_sortAsc (l : List Memory) : (sortAsc l).length = l.length := by
  induction l with
  | nil => rfl
  | cons y ys ih =>
      show (insertAsc y (sortAsc ys)).length = ys.length + 1
      rw [length_insertAsc, ih]

theorem mem_cleanup {x : Memory} {s : Store} {now : Int}
    (h : x ∈ (cleanupOldMemories s now).memories) : x ∈ s.memories := by
  unfold cleanupOldMemories at h
  simp at h
  exact h.1

theorem mem_enforceMax {x : Memory} {s : Store}
    (h : x ∈ (enforceMaxMemories s).memories) : x ∈ s.memories := by
  unfold enforceMaxMemories at h
  by_cases hc : s.memories.length > s.maxMemories
  · simp [hc] at h
    exact mem_sortAsc (List.mem_of_mem_drop h)
  · simpa [hc] using h

theorem enforceMax_length_le (s : Store) :
    (enforceMaxMemories s).memories.length ≤ (enforceMaxMemories s).maxMemories := by
  unfold enforceMaxMemories
  by_cases hc : s.memories.length > s.maxMemories
  · simp [hc, length_sortAsc]
    omega
  · simp [hc]
    omega

theorem enforceMax_fields (s : Store) :
    (enforceMaxMemories s).maxMemories = s.maxMemories
      ∧ (enforceMaxMemories s).retentionHours = s.retentionHours
      ∧ (enforceMaxMemories s).nextId = s.nextId := by
  unfold enforceMaxMemories
  by_cases hc : s.memories.length > s.maxMemories <;> simp [hc]

/-- Reduction of `addMemory` by cases on the pydantic importance bounds. -/
theorem addMemory_eq (s : Store) (now : Int) (c : String) (t : MemoryType)
    (i : Rat) (tg : List String) (md : List (String × String)) :
    addMemory s now c t i tg md =
      if 0 ≤ i ∧ i ≤ 10 then
        (some ("mem_" ++ toString s.nextId),
          enforceMaxMemories (cleanupOldMemories
            { s with nextId := s.nextId + 1,
                     memories := s.memories ++
                       [⟨"mem_" ++ toString s.nextId, c, t, now, i, tg, md⟩] } now))
      else (none, { s with nextId := s.nextId + 1 }) := by
  by_cases h : 0 ≤ i ∧ i ≤ 10 <;>
    simp [addMemory, mkMemory?, memValid, h]

/-- C1: the claim predicts that `add` clamps an out-of-range importance and
stores the record; the code instead raises a pydantic `ValidationError` and
stores nothing. At importance 15 on a fresh store, `add` fails and the store
stays empty. -/
theorem c1_counterexample :
    (addMemory (mkStore 100 24) 0 "x" MemoryType.conversation 15 [] []).1 = none
  ∧ (addMemory (mkStore 100 24) 0 "x" MemoryType.conversation 15 [] []).2.memories
      = [] := by
  constructor <;> rfl

/-- C1 (amended): `add` validates rather than clamps. An importance outside
[0.0, 10.0] makes `add` raise (result `none`) with no record stored and
`_next_id` already advanced; an in-range importance is accepted; and if every
stored record's importance lies within [0.0, 10.0] then after any `add` that
still holds. -/
theorem c1_add_validates_importance (s : Store) (now : Int) (c : String)
    (t : MemoryType) (i : Rat) (tg : List String) (md : List (String × String)) :
    ((i < 0 ∨ 10 < i) →
        (addMemory s now c t i tg md).1 = none
      ∧ (addMemory s now c t i tg md).2.memories = s.memories
      ∧ (addMemory s now c t i tg md).2.nextId = s.nextId + 1)
  ∧ (0 ≤ i → i ≤ 10 →
      (addMemory s now c t i tg md).1 = some ("mem_" ++ toString s.nextId))
  ∧ ((∀ m ∈ s.memories, memValid m) →
      ∀ m ∈ (addMemory s now c t i tg md).2.memories, memValid m) := by
  rw [addMemory_eq]
  by_cases h : 0 ≤ i ∧ i ≤ 10
  · rw [if_pos h]
    refine ⟨fun hout => ?_, fun _ _ => rfl, fun hall m hm => ?_⟩
    · rcases hout with hout | hout
      · exact absurd h.1 (not_le.mpr hout)
      · exact absurd h.2 (not_le.mpr hout)
    · have hm' := mem_cleanup (mem_enforceMax hm)
      simp only [List.mem_append, List.mem_singleton] at hm'
      rcases hm' with hm' | hm'
      · exact hall m hm'
      · subst hm'
        exact h
  · rw [if_neg h]
    refine ⟨fun _ => ⟨rfl, rfl, rfl⟩, fun h0 h10 => absurd ⟨h0, h10⟩ h, fun hall m hm => ?_⟩
    exact hall m hm

/-- C1 amended-theorem witness at concrete inputs. -/
theorem c1_add_validates_importance_witness :
    (addMemory (mkStore 100 24) 0 "x" MemoryType.conversation 15 [] []).1 = none
  ∧ (addMemory (mkStore 100 24) 0 "x" MemoryType.conversation 15 [] []).2.memories = []
  ∧ (addMemory (mkStore 100 24) 0 "y" MemoryType.conversation 3 [] []).1
      = some "mem_1" := by
  have h1 := (c1_add_validates_importance (mkStore 100 24) 0 "x"
    MemoryType.conversation 15 [] []).1 (Or.inr (by norm_num))
  have h2 := ((c1_add_validates_importance (mkStore 100 24) 0 "y"
    MemoryType.conversation 3 [] []).2.1) (by norm_num) (by norm_num)
  exact ⟨h1.1, h1.2.1, h2⟩

/-- Scenario stores for the cleanup/eviction claims: A (importance 1), then
B (importance 5), then C (importance 3) into a store with capacity 2. -/
def c2StoreA : Store := (addMemory (mkStore 2 24) 0 "A" MemoryType.conversation 1 [] []).2

def c2StoreAB : Store := (addMemory c2StoreA 1 "B" MemoryType.conversation 5 [] []).2

def c2StoreABC : Store := (addMemory c2StoreAB 2 "C" MemoryType.conversation 3 [] []).2

/-- A high-importance record that ages past retention. -/
def c2OrderStoreX : Store :=
  (addMemory (mkStore 1 24) 0 "X" MemoryType.conversation 10 [] []).2

/-- Adding Y (importance 1) 30 hours later: pass (a) drops the aged X first,
so Y survives; running size eviction first would instead have evicted Y. -/
def c2OrderStoreXY : Store :=
  (addMemory c2OrderStoreX 30 "Y" MemoryType.conversation 1 [] []).2

/-- C2: the post-add cleanup drops aged records first and only then evicts by
ascending (importance, created_at). With `max_records=2`, adding A (1.0),
B (5.0), C (3.0) leaves exactly {B, C} and `get()` returns [B, C]; and an aged
record is dropped by the retention pass before size eviction is considered,
so the fresh low-importance record survives. -/
theorem c2_cleanup_two_passes_scenario :
    (c2StoreABC.memories.map (fun m => m.content) = ["C", "B"]
      ∧ c2StoreABC.memories.map (fun m => m.id) = ["mem_3", "mem_2"])
  ∧ (getMemories c2StoreABC 2 none none 0 none none).map (fun m => m.content)
      = ["B", "C"]
  ∧ (getMemories c2StoreABC 2 none none 0 none none).map (fun m => m.importance)
      = [5, 3]
  ∧ c2OrderStoreXY.memories.map (fun m => m.content) = ["Y"] := by
  refine ⟨⟨?_, ?_⟩, ?_, ?_, ?_⟩ <;> rfl

/-- C9: passing `limit=0` or `hours_back=0` behaves exactly as omitting the
parameter (Python truthiness): no truncation to zero records, no time filter. -/
theorem c9_zero_limit_and_zero_hours_behave_as_absent (s : Store) (now : Int)
    (mt : Option MemoryType) (tg : Option (List String)) (mi : Rat)
    (lim : Option Nat) (hb : Option Nat) :
    getMemories s now mt tg mi (some 0) hb = getMemories s now mt tg mi none hb
  ∧ getMemories s now mt tg mi lim (some 0) = getMemories s now mt tg mi lim none := by
  constructor <;> rfl

/-!
The documented mutating operations, as a single step type (claim C3).
-/

/-- One documented mutating operation of `ShortTermMemory`. -/
inductive MemOp where
  | add (now : Int) (content : String) (memoryType : MemoryType) (importance : Rat)
      (tags : List String) (metadata : List (String × String))
  | updateImportance (memoryId : String) (newImportance : Rat)
  | delete (memoryId : String)
  | clear (memoryType : Option MemoryType)

/-- Apply one mutating operation to the store (return values dropped; a failed
`add` still advances `_next_id`, as in the code). -/
def applyOp (s : Store) : MemOp → Store
  | .add now c t i tg md => (addMemory s now c t i tg md).2
  | .updateImportance mid ni => (updateMemoryImportance s mid ni).2
  | .delete mid => (deleteMemory s mid).2
  | .clear mt => clearMemories s mt

theorem updateFirst_length (mid : String) (ni : Rat) (l : List Memory) :
    (updateFirst mid ni l).2.length = l.length := by
  induction l with
  | nil => rfl
  | cons m ms ih =>
      unfold updateFirst
      by_cases h : m.id = mid <;> simp [h, ih]

theorem deleteFirst_length_le (mid : String) (l : List Memory) :
    (deleteFirst mid l).2.length ≤ l.length := by
  induction l with
  | nil => exact Nat.le_refl _
  | cons m ms ih =>
      unfold deleteFirst
      by_cases h : m.id = mid
      all_goals simp [h]
      all_goals omega

theorem addMemory_snd_le (s : Store) (now : Int) (c : String) (t : MemoryType)
    (i : Rat) (tg : List String) (md : List (String × String))
    (h : s.memories.length ≤ s.maxMemories) :
    (addMemory s now c t i tg md).2.memories.length
      ≤ (addMemory s now c t i tg md).2.maxMemories := by
  rw [addMemory_eq]
  by_cases hv : 0 ≤ i ∧ i ≤ 10
  · rw [if_pos hv]
    exact enforceMax_length_le _
  · rw [if_neg hv]
    exact h

theorem applyOp_preserves (s : Store) (op : MemOp)
    (h : s.memories.length ≤ s.maxMemories) :
    (applyOp s op).memories.length ≤ (applyOp s op).maxMemories := by
  cases op with
  | add now c t i tg md => exact addMemory_snd_le s now c t i tg md h
  | updateImportance mid ni =>
      show (updateMemoryImportance s mid ni).2.memories.length ≤ _
      simp [applyOp, updateMemoryImportance, updateFirst_length]
      exact h
  | delete mid =>
      show (deleteMemory s mid).2.memories.length ≤ _
      simp [applyOp, deleteMemory]
      exact le_trans (deleteFirst_length_le mid s.memories) h
  | clear mt =>
      cases mt with
      | none => simp [applyOp, clearMemories]
      | some t =>
          simp [applyOp, clearMemories]
          exact le_trans (List.length_filter_le _ _) h

theorem foldl_applyOp_preserves (ops : List MemOp) (s : Store)
    (h : s.memories.length ≤ s.maxMemories) :
    (ops.foldl applyOp s).memories.length ≤ (ops.foldl applyOp s).maxMemories := by
  induction ops generalizing s with
  | nil => exact h
  | cons op rest ih => exact ih (applyOp s op) (applyOp_preserves s op h)

/-- C3: starting from any store within capacity (in particular a fresh one),
after every sequence of the documented mutating operations the record count is
at most `max_records`; and any `add` that returns an id leaves the count at
most `max_records`, whatever the prior state. -/
theorem c3_size_never_exceeds_max (s : Store)
    (h : s.memories.length ≤ s.maxMemories) (ops : List MemOp) :
    ((ops.foldl applyOp s).memories.length ≤ (ops.foldl applyOp s).maxMemories)
  ∧ (∀ (s' : Store) (now : Int) (c : String) (t : MemoryType) (i : Rat)
      (tg : List String) (md : List (String × String)) (mid : String),
      (addMemory s' now c t i tg md).1 = some mid →
      (addMemory s' now c t i tg md).2.memories.length
        ≤ (addMemory s' now c t i tg md).2.maxMemories) := by
  refine ⟨foldl_applyOp_preserves ops s h, fun s' now c t i tg md mid hr => ?_⟩
  rw [addMemory_eq] at hr ⊢
  by_cases hv : 0 ≤ i ∧ i ≤ 10
  · rw [if_pos hv]
    exact enforceMax_length_le _
  · rw [if_neg hv] at hr
    simp at hr

/-- C3 witness: the A/B/C overfill sequence on a fresh capacity-2 store. -/
theorem c3_size_never_exceeds_max_witness :
    ([MemOp.add 0 "A" MemoryType.conversation 1 [] [],
       MemOp.add 1 "B" MemoryType.conversation 5 [] [],
       MemOp.add 2 "C" MemoryType.conversation 3 [] [],
       MemOp.updateImportance "mem_2" 7,
       MemOp.delete "mem_9"].foldl applyOp (mkStore 2 24)).memories.length
      ≤ ([MemOp.add 0 "A" MemoryType.conversation 1 [] [],
          MemOp.add 1 "B" MemoryType.conversation 5 [] [],
          MemOp.add 2 "C" MemoryType.conversation 3 [] [],
          MemOp.updateImportance "mem_2" 7,
          MemOp.delete "mem_9"].foldl applyOp (mkStore 2 24)).maxMemories :=
  (c3_size_never_exceeds_max (mkStore 2 24) (by decide)
    [MemOp.add 0 "A" MemoryType.conversation 1 [] [],
     MemOp.add 1 "B" MemoryType.conversation 5 [] [],
     MemOp.add 2 "C" MemoryType.conversation 3 [] [],
     MemOp.updateImportance "mem_2" 7,
     MemOp.delete "mem_9"]).1

/-- A store holding one record (id `mem_1`, importance 1, tags
`["morning", "focus"]`), used as concrete input by several witnesses. -/
def oneRecordStore : Store :=
  (addMemory (mkStore 10 24) 0 "r" MemoryType.conversation 1 ["morning", "focus"] []).2

theorem validateAll_of_valid (l : List Memory) (h : ∀ m ∈ l, memValid m) :
    validateAll l = some l := by
  induction l with
  | nil => rfl
  | cons m ms ih =>
      have hm : memValid m := h m (by simp)
      have hms : validateAll ms = some ms :=
        ih (fun x hx => h x (List.mem_cons_of_mem _ hx))
      unfold validateAll revalidateMemory
      rw [if_pos hm, hms]

/-- C5: serializing a store with `to_dict` and rebuilding with `from_dict`
restores the record list, `next_id`, `max_memories` and `retention_hours`
exactly (every stored record satisfies the pydantic importance bounds, so
revalidation succeeds). -/
theorem c5_to_dict_from_dict_roundtrip (s0 s : Store)
    (h : ∀ m ∈ s.memories, memValid m) :
    fromDict s0 (toDict s) = some s := by
  unfold fromDict toDict
  rw [validateAll_of_valid s.memories h]

/-- C5 witness: round trip of a concrete one-record store. -/
theorem c5_roundtrip_witness :
    fromDict (mkStore 1 1) (toDict oneRecordStore) = some oneRecordStore :=
  c5_to_dict_from_dict_roundtrip (mkStore 1 1) oneRecordStore (by decide)

theorem updateFirst_absent (mid : String) (ni : Rat) (l : List Memory)
    (h : ∀ m ∈ l, m.id ≠ mid) : updateFirst mid ni l = (false, l) := by
  induction l with
  | nil => rfl
  | cons m ms ih =>
      have hm : m.id ≠ mid := h m (by simp)
      unfold updateFirst
      simp [hm, ih (fun x hx => h x (List.mem_cons_of_mem _ hx))]

theorem map_update_of_absent (mid : String) (ni : Rat) (l : List Memory)
    (h : ∀ x ∈ l, x.id ≠ mid) :
    l.map (fun m => if m.id = mid then
        { m with importance := clampImportance ni } else m) = l := by
  induction l with
  | nil => rfl
  | cons m ms ih =>
      have hm : m.id ≠ mid := h m (by simp)
      simp [hm, ih (fun x hx => h x (List.mem_cons_of_mem _ hx))]

theorem updateFirst_present (mid : String) (ni : Rat) (l : List Memory)
    (hnd : (l.map (fun m => m.id)).Nodup) (hex : ∃ m ∈ l, m.id = mid) :
    updateFirst mid ni l =
      (true, l.map (fun m => if m.id = mid then
          { m with importance := clampImportance ni } else m)) := by
  induction l with
  | nil => simp at hex
  | cons m ms ih =>
      simp only [List.map_cons, List.nodup_cons] at hnd
      by_cases hm : m.id = mid
      · have habs : ∀ x ∈ ms, x.id ≠ mid := by
          intro x hx heq
          have hmem : x.id ∈ List.map (fun m => m.id) ms := List.mem_map_of_mem _ hx
          rw [heq, ← hm] at hmem
          exact hnd.1 hmem
        unfold updateFirst
        simp [hm, map_update_of_absent mid ni ms habs]
      · have hex' : ∃ x ∈ ms, x.id = mid := by
          rcases hex with ⟨x, hx, hxid⟩
          rcases List.mem_cons.mp hx with h' | h'
          · exact absurd (h' ▸ hxid) hm
          · exact ⟨x, h', hxid⟩
        unfold updateFirst
        simp [hm, ih hnd.2 hex']

/-- C6: `updateImportance` clamps the new importance into [0, 10] and applies
it to the record with the given id, returning `true`; with no matching id it
returns `false` and leaves the store unchanged. Clamping sends -5 to 0 and
15 to 10. -/
theorem c6_update_importance_clamps (s : Store)
    (hnd : (s.memories.map (fun m => m.id)).Nodup) (mid : String) (ni : Rat) :
    ((∀ m ∈ s.memories, m.id ≠ mid) →
        updateMemoryImportance s mid ni = (false, s))
  ∧ ((∃ m ∈ s.memories, m.id = mid) →
        updateMemoryImportance s mid ni =
          (true, { s with memories := s.memories.map (fun m =>
              if m.id = mid then
                { m with importance := clampImportance ni } else m) }))
  ∧ (0 ≤ clampImportance ni ∧ clampImportance ni ≤ 10)
  ∧ clampImportance (-5) = 0 ∧ clampImportance 15 = 10 := by
  refine ⟨fun habs => ?_, fun hex => ?_, ⟨le_max_left 0 _, ?_⟩, by decide, by decide⟩
  · unfold updateMemoryImportance
    rw [updateFirst_absent mid ni s.memories habs]
  · unfold updateMemoryImportance
    rw [updateFirst_present mid ni s.memories hnd hex]
  · exact max_le (by norm_num) (min_le_left 10 ni)

/-- C6 witness: on the one-record store, updating an absent id is a `false`
no-op; updating `mem_1` with -5 clamps to 0 and returns `true`. -/
theorem c6_update_importance_witness :
    updateMemoryImportance oneRecordStore "nope" 5 = (false, oneRecordStore)
  ∧ updateMemoryImportance oneRecordStore "mem_1" (-5) =
      (true, { oneRecordStore with memories := oneRecordStore.memories.map (fun m =>
          if m.id = "mem_1" then
            { m with importance := clampImportance (-5) } else m) }) := by
  have h1 := (c6_update_importance_clamps oneRecordStore (by decide) "nope" 5).1
    (by decide)
  have h2 := (c6_update_importance_clamps oneRecordStore (by decide) "mem_1" (-5)).2.1
    (by decide)
  exact ⟨h1, h2⟩

theorem deleteFirst_absent (mid : String) (l : List Memory)
    (h : ∀ m ∈ l, m.id ≠ mid) : deleteFirst mid l = (false, l) := by
  induction l with
  | nil => rfl
  | cons m ms ih =>
      have hm : m.id ≠ mid := h m (by simp)
      unfold deleteFirst
      simp [hm, ih (fun x hx => h x (List.mem_cons_of_mem _ hx))]

theorem deleteFirst_present (mid : String) (l : List Memory)
    (hnd : (l.map (fun m => m.id)).Nodup) (hex : ∃ m ∈ l, m.id = mid) :
    deleteFirst mid l = (true, l.filter (fun x => !decide (x.id = mid)))
  ∧ (l.filter (fun x => !decide (x.id = mid))).length + 1 = l.length := by
  induction l with
  | nil => simp at hex
  | cons m ms ih =>
      simp only [List.map_cons, List.nodup_cons] at hnd
      by_cases hm : m.id = mid
      · have habs : ∀ x ∈ ms, x.id ≠ mid := by
          intro x hx heq
          have hmem : x.id ∈ List.map (fun m => m.id) ms := List.mem_map_of_mem _ hx
          rw [heq, ← hm] at hmem
          exact hnd.1 hmem
        have hfil : ms.filter (fun x => !decide (x.id = mid)) = ms := by
          rw [List.filter_eq_self]
          intro x hx
          simp [habs x hx]
        unfold deleteFirst
        simp [hm, hfil]
      · have hex' : ∃ x ∈ ms, x.id = mid := by
          rcases hex with ⟨x, hx, hxid⟩
          rcases List.mem_cons.mp hx with h' | h'
          · exact absurd (h' ▸ hxid) hm
          · exact ⟨x, h', hxid⟩
        have hih := ih hnd.2 hex'
        unfold deleteFirst
        refine ⟨?_, ?_⟩
        · simp [hm, hih.1]
        · simp only [List.filter_cons, List.length_cons]
          have hcond : (!decide (m.id = mid)) = true := by simp [hm]
          rw [hcond]
          have h2 := hih.2
          simp only [if_true, List.length_cons]
          omega

/-- C7: `delete` of an absent id returns `false` and leaves the store
completely unchanged; `delete` of a present id returns `true` and removes
exactly that record, leaving every other record in place. -/
theorem c7_delete_exactly_one (s : Store)
    (hnd : (s.memories.map (fun m => m.id)).Nodup) (mid : String) :
    ((∀ m ∈ s.memories, m.id ≠ mid) → deleteMemory s mid = (false, s))
  ∧ (∀ m ∈ s.memories, m.id = mid →
        deleteMemory s mid =
          (true, { s with memories :=
              s.memories.filter (fun x => !decide (x.id = mid)) })
      ∧ (deleteMemory s mid).2.memories.length + 1 = s.memories.length
      ∧ m ∉ (deleteMemory s mid).2.memories) := by
  constructor
  · intro habs
    unfold deleteMemory
    rw [deleteFirst_absent mid s.memories habs]
  · intro m hm hmid
    have hdf := deleteFirst_present mid s.memories hnd ⟨m, hm, hmid⟩
    have heq : deleteMemory s mid =
        (true, { s with memories :=
            s.memories.filter (fun x => !decide (x.id = mid)) }) := by
      unfold deleteMemory
      rw [hdf.1]
    refine ⟨heq, ?_, ?_⟩
    · rw [heq]
      exact hdf.2
    · rw [heq]
      intro hmem
      have := List.of_mem_filter hmem
      simp [hmid] at this

/-- C7 witness: on the one-record store, deleting an absent id is a `false`
no-op; deleting `mem_1` returns `true` and empties the record list. -/
theorem c7_delete_witness :
    deleteMemory oneRecordStore "nope" = (false, oneRecordStore)
  ∧ deleteMemory oneRecordStore "mem_1" =
      (true, { oneRecordStore with memories :=
          oneRecordStore.memories.filter (fun x => !decide (x.id = "mem_1")) }) := by
  have h1 := (c7_delete_exactly_one oneRecordStore (by decide) "nope").1 (by decide)
  have hm : oneRecordStore.memories.length = 1 := by decide
  have h2 := ((c7_delete_exactly_one oneRecordStore (by decide) "mem_1").2
    (oneRecordStore.memories.head (by simp [hm] at *; decide))
    (by decide) (by decide)).1
  exact ⟨h1, h2⟩

theorem validateAll_eq_some (l l' : List Memory) (h : validateAll l = some l') :
    l' = l := by
  induction l generalizing l' with
  | nil =>
      simp [validateAll] at h
      exact h
  | cons m ms ih =>
      unfold validateAll revalidateMemory at h
      by_cases hv : memValid m
      · rw [if_pos hv] at h
        cases hms : validateAll ms with
        | none => rw [hms] at h; simp at h
        | some ms' =>
            rw [hms] at h
            simp at h
            rw [← h, ih ms' hms]
      · rw [if_neg hv] at h
        simp at h

/-- C10: `from_dict` replaces the state with exactly the deserialized records
and the stored `next_id`, `max_memories`, `retention_hours`; it runs no
retention sweep and no capacity eviction, so restoring more records than
`max_memories` leaves the store over capacity — and the next successful `add`
brings it back within capacity. -/
theorem c10_from_dict_replaces_without_cleanup (s : Store) (d : StoreDict)
    (s' : Store) (h : fromDict s d = some s') :
    s'.memories = d.memories
  ∧ s'.nextId = d.next_id
  ∧ s'.maxMemories = d.max_memories
  ∧ s'.retentionHours = d.retention_hours
  ∧ (d.memories.length > d.max_memories → s'.memories.length > s'.maxMemories)
  ∧ (∀ (now : Int) (c : String) (t : MemoryType) (i : Rat) (tg : List String)
      (md : List (String × String)),
      0 ≤ i → i ≤ 10 →
      (addMemory s' now c t i tg md).2.memories.length
        ≤ (addMemory s' now c t i tg md).2.maxMemories) := by
  unfold fromDict at h
  cases hv : validateAll d.memories with
  | none => rw [hv] at h; simp at h
  | some ms =>
      rw [hv] at h
      simp at h
      have hms : ms = d.memories := validateAll_eq_some d.memories ms hv
      subst h
      refine ⟨by simp [hms], rfl, rfl, rfl, ?_, ?_⟩
      · intro hlen
        simpa [hms] using hlen
      · intro now c t i tg md h0 h10
        rw [addMemory_eq]
        rw [if_pos ⟨h0, h10⟩]
        exact enforceMax_length_le _

/-- A persisted layout holding three records against `max_memories = 2`. -/
def c10Dict : StoreDict :=
  { memories :=
      [⟨"mem_1", "a", MemoryType.conversation, 0, 1, [], []⟩,
       ⟨"mem_2", "b", MemoryType.conversation, 0, 2, [], []⟩,
       ⟨"mem_3", "c", MemoryType.conversation, 0, 3, [], []⟩],
    next_id := 4, max_memories := 2, retention_hours := 24 }

/-- The store `from_dict` rebuilds from `c10Dict`. -/
def c10Restored : Store :=
  { maxMemories := 2, retentionHours := 24, memories := c10Dict.memories, nextId := 4 }

/-- C10 witness: restoring three records against capacity 2 leaves the store
over capacity. -/
theorem c10_from_dict_witness :
    c10Restored.memories.length > c10Restored.maxMemories :=
  (c10_from_dict_replaces_without_cleanup (mkStore 5 5) c10Dict c10Restored
    (by rfl)).2.2.2.2.1 (by decide)

/-- Modelled from the claim's words, to be compared with `getMemories`: the
filters in order (kind when given, ANY-match on a non-empty tags list,
importance at least the minimum, `created_at >= now - hours_back` when
`hours_back` is given), then the descending sort, then truncation to the
first `limit` entries when `limit` is given. -/
def specGetMemories (s : Store) (now : Int) (memoryType : Option MemoryType)
    (tags : Option (List String)) (minImportance : Rat)
    (limit : Option Nat) (hoursBack : Option Nat) : List Memory :=
  let f1 : List Memory := match memoryType with
    | some t => s.memories.filter (fun m => decide (m.memoryType = t))
    | none => s.memories
  let f2 : List Memory := match tags with
    | some ts =>
        if ts.isEmpty then f1
        else f1.filter (fun m => ts.any (fun t => m.tags.contains t))
    | none => f1
  let f3 := f2.filter (fun m => decide (minImportance ≤ m.importance))
  let f4 := match hoursBack with
    | some h => f3.filter (fun m => decide (now - (h : Int) ≤ m.timestamp))
    | none => f3
  let f5 := sortDesc f4
  match limit with
  | some n => f5.take n
  | none => f5

/-- C4: the claim's reading of `limit` ("truncated to the first limit entries
when limit is given") fails at `limit = 0`: the code returns the whole result
while the claim-predicted pipeline returns nothing. -/
theorem c4_counterexample :
    getMemories oneRecordStore 0 none none 0 (some 0) none
      ≠ specGetMemories oneRecordStore 0 none none 0 (some 0) none := by
  decide

/-- C4 (amended): for a positive `limit` and a positive `hours_back` (or
either absent), `get` returns exactly the claim's pipeline: kind filter,
ANY-match tag filter, importance floor, time window, descending
(importance, created_at) sort, truncation. The tags scenario holds: the
record tagged `["morning", "focus"]` is returned for `tags=["focus"]` and
not for `tags=["evening"]`. -/
theorem c4_get_filter_semantics (s : Store) (now : Int) (mt : Option MemoryType)
    (tg : Option (List String)) (mi : Rat) (lim : Option Nat) (hb : Option Nat)
    (hlim : ∀ n, lim = some n → 0 < n) (hhb : ∀ n, hb = some n → 0 < n) :
    getMemories s now mt tg mi lim hb = specGetMemories s now mt tg mi lim hb
  ∧ (getMemories oneRecordStore 0 none (some ["focus"]) 0 none none).map
      (fun m => m.id) = ["mem_1"]
  ∧ getMemories oneRecordStore 0 none (some ["evening"]) 0 none none = [] := by
  refine ⟨?_, by decide, by decide⟩
  cases lim with
  | none =>
      cases hb with
      | none => rfl
      | some h =>
          have hh : h ≠ 0 := (hhb h rfl).ne'
          simp [getMemories, specGetMemories, hh]
  | some n =>
      have hn : n ≠ 0 := (hlim n rfl).ne'
      cases hb with
      | none => simp [getMemories, specGetMemories, hn]
      | some h =>
          have hh : h ≠ 0 := (hhb h rfl).ne'
          simp [getMemories, specGetMemories, hn, hh]

/-- C4 amended-theorem witness at positive `limit` and `hours_back`. -/
theorem c4_get_filter_semantics_witness :
    getMemories oneRecordStore 0 none none 0 (some 1) (some 48)
      = specGetMemories oneRecordStore 0 none none 0 (some 1) (some 48) :=
  (c4_get_filter_semantics oneRecordStore 0 none none 0 (some 1) (some 48)
    (fun n h => by injection h with h'; omega)
    (fun n h => by injection h with h'; omega)).1

theorem moodTagsOf_cases (m : String) :
    moodTagsOf m = [] ∨ moodTagsOf m = ["positive-energy"]
      ∨ moodTagsOf m = ["melancholic"] ∨ moodTagsOf m = ["calm"]
      ∨ moodTagsOf m = ["intense"] := by
  unfold moodTagsOf
  split_ifs <;> tauto

theorem activityTagsOf_cases (a : String) :
    activityTagsOf a = [] ∨ activityTagsOf a = ["focus"]
      ∨ activityTagsOf a = ["exercise"] ∨ activityTagsOf a = ["relaxation"]
      ∨ activityTagsOf a = ["social"] ∨ activityTagsOf a = ["travel"] := by
  unfold activityTagsOf
  split_ifs <;> tauto

theorem timeOfDayTag_cases (h : Nat) :
    timeOfDayTag h = "morning" ∨ timeOfDayTag h = "afternoon"
      ∨ timeOfDayTag h = "evening" ∨ timeOfDayTag h = "night" := by
  unfold timeOfDayTag
  split_ifs <;> tauto

theorem moodTagsOf_counts (m : String) :
    (moodTagsOf m).countP (fun t => decide (t ∈ moodTagSet)) ≤ 1
  ∧ (moodTagsOf m).countP (fun t => decide (t ∈ activityTagSet)) = 0
  ∧ (moodTagsOf m).countP (fun t => decide (t ∈ timeTagSet)) = 0 := by
  rcases moodTagsOf_cases m with h | h | h | h | h <;> rw [h] <;>
    exact ⟨by decide, by decide, by decide⟩

theorem activityTagsOf_counts (a : String) :
    (activityTagsOf a).countP (fun t => decide (t ∈ moodTagSet)) = 0
  ∧ (activityTagsOf a).countP (fun t => decide (t ∈ activityTagSet)) ≤ 1
  ∧ (activityTagsOf a).countP (fun t => decide (t ∈ timeTagSet)) = 0 := by
  rcases activityTagsOf_cases a with h | h | h | h | h | h <;> rw [h] <;>
    exact ⟨by decide, by decide, by decide⟩

theorem timeOfDayTag_counts (h : Nat) :
    ([timeOfDayTag h].countP (fun t => decide (t ∈ moodTagSet)) = 0)
  ∧ ([timeOfDayTag h].countP (fun t => decide (t ∈ activityTagSet)) = 0)
  ∧ ([timeOfDayTag h].countP (fun t => decide (t ∈ timeTagSet)) = 1) := by
  rcases timeOfDayTag_cases h with h' | h' | h' | h' <;> rw [h'] <;>
    exact ⟨by decide, by decide, by decide⟩

/-- C8: tag derivation yields at most one mood tag and at most one activity
tag (first matching keyword category wins), and appends exactly one
time-of-day tag as the last element, chosen by the hour: morning for 5-11,
afternoon for 12-16, evening for 17-20, night otherwise. -/
theorem c8_semantic_tags (inp : UserInput) :
    ((getSemanticTags (some inp)).countP (fun t => decide (t ∈ moodTagSet)) ≤ 1)
  ∧ ((getSemanticTags (some inp)).countP (fun t => decide (t ∈ activityTagSet)) ≤ 1)
  ∧ ((getSemanticTags (some inp)).countP (fun t => decide (t ∈ timeTagSet)) = 1)
  ∧ (getSemanticTags (some inp)).getLast? = some (timeOfDayTag inp.hour)
  ∧ timeOfDayTag inp.hour =
      (if 5 ≤ inp.hour ∧ inp.hour < 12 then "morning"
       else if 12 ≤ inp.hour ∧ inp.hour < 17 then "afternoon"
       else if 17 ≤ inp.hour ∧ inp.hour < 21 then "evening"
       else "night")
  ∧ ((["happy", "excited", "joyful", "energetic"].any
        fun w => strIn w (strLower inp.mood)) = true →
      moodTagsOf inp.mood = ["positive-energy"])
  ∧ ((["work", "study", "focus", "coding"].any
        fun w => strIn w (strLower inp.activity)) = true →
      activityTagsOf inp.activity = ["focus"]) := by
  have hm := moodTagsOf_counts inp.mood
  have ha := activityTagsOf_counts inp.activity
  have ht := timeOfDayTag_counts inp.hour
  have hgs : getSemanticTags (some inp) =
      moodTagsOf inp.mood ++ activityTagsOf inp.activity ++ [timeOfDayTag inp.hour] :=
    rfl
  refine ⟨?_, ?_, ?_, ?_, rfl, ?_, ?_⟩
  · rw [hgs, List.countP_append, List.countP_append]
    have h1 := hm.1
    have h2 := ha.1
    have h3 := ht.1
    omega
  · rw [hgs, List.countP_append, List.countP_append]
    have h1 := hm.2.1
    have h2 := ha.2.1
    have h3 := ht.2.1
    omega
  · rw [hgs, List.countP_append, List.countP_append]
    have h1 := hm.2.2
    have h2 := ha.2.2
    have h3 := ht.2.2
    omega
  · rw [hgs]
    exact List.getLast?_concat _
  · intro h
    simp [moodTagsOf, h]
  · intro h
    simp [activityTagsOf, h]

/-- C8 witness: a concrete input whose mood matches the first mood category,
whose activity matches the first activity category, at hour 6 (morning). -/
theorem c8_semantic_tags_witness :
    ((getSemanticTags (some ⟨"Happy and sad", "Working out", 6⟩)).countP
        (fun t => decide (t ∈ moodTagSet)) ≤ 1)
  ∧ (getSemanticTags (some ⟨"Happy and sad", "Working out", 6⟩)).getLast?
      = some (timeOfDayTag 6)
  ∧ moodTagsOf "Happy and sad" = ["positive-energy"]
  ∧ activityTagsOf "Working out" = ["focus"] := by
  have h := c8_semantic_tags ⟨"Happy and sad", "Working out", 6⟩
  exact ⟨h.1, h.2.2.2.1, h.2.2.2.2.2.1 (by decide), h.2.2.2.2.2.2 (by decide)⟩
